import Mathlib

/-
Verification development for the chembl_tools repository.

The Python modules `chembltools/chembl.py` and `chembltools/uniprot.py` are
shallowly embedded below.  Conventions used throughout:

* Remote HTTP services (the ChEMBL web client and the UniProt text service)
  are modelled as explicit parameters: either query functions over an
  in-memory database value (field filters become `List.filter` over the
  database), or fetch functions returning `Except` values.
* Python `dict`s are modelled as insertion-ordered association lists
  (`List (String × α)`): updating an existing key rewrites it in place,
  a new key is appended, matching CPython semantics.
* Python `set`s are modelled as duplicate-free lists with `setAdd`
  (insertion order stands in for CPython's unspecified iteration order;
  all properties proved below depend only on membership).
* Python exceptions are modelled with `Except PyErr`; an exception that
  the source catches is handled locally, one it does not catch is
  propagated as an `Except.error`.
* Machine floats of the source carry exact decimal data from the services,
  so they are modelled as `Rat`.
-/

namespace ChemblTools

/-- An HTTP error raised by `urllib.request.urlopen`, carrying its status code. -/
structure HTTPFailure where
  code : Nat
deriving DecidableEq

/-- Python exception classes that the embedded code can raise or catch. -/
inductive PyErr where
  | typeError
  | valueError
  | nameError
  | keyError
  | indexError
  | httpError (e : HTTPFailure)
deriving DecidableEq

deriving instance DecidableEq for Except

/-! ### Python string primitives -/

/-- Is the first list a prefix of the second (by `==` on characters)? -/
def isPrefixCh : List Char → List Char → Bool
  | [], _ => true
  | _ :: _, [] => false
  | a :: as, b :: bs => a = b && isPrefixCh as bs

/-- Python `str.startswith`. -/
def pyStartsWith (s pre : String) : Bool :=
  isPrefixCh pre.data s.data

/-- Python `str.lower` (ASCII case folding, as used by the source on names). -/
def pyLower (s : String) : String :=
  ⟨s.data.map Char.toLower⟩

/-- Characters treated as whitespace by Python `str.strip()`. -/
def pyWhitespace : List Char := [' ', '\t', '\n', '\r']

/-- Python `str.strip(chars)`: remove the given characters from both ends. -/
def pyStrip (cs : List Char) (s : String) : String :=
  ⟨((s.data.dropWhile (cs.contains ·)).reverse.dropWhile (cs.contains ·)).reverse⟩

/-- Worker for `pySplit`; `fuel` bounds the recursion (callers pass the input
length, which always suffices since the separator is nonempty). -/
def splitChAux (c0 : Char) (sepRest : List Char) : Nat → List Char → List Char → List (List Char)
  | _, [], cur => [cur]
  | 0, l, cur => [cur ++ l]
  | fuel + 1, c :: rest, cur =>
    if isPrefixCh (c0 :: sepRest) (c :: rest) then
      cur :: splitChAux c0 sepRest fuel (rest.drop sepRest.length) []
    else
      splitChAux c0 sepRest fuel rest (cur ++ [c])

/-- Python `str.split(sep)` for a nonempty separator (the source only splits
on `";"`, `":"` and `"Full="`). -/
def pySplit (s sep : String) : List String :=
  match sep.data with
  | [] => [s]
  | c :: cs => (splitChAux c cs s.data.length s.data []).map (fun l => String.mk l)

/-- Python sequence indexing over a list of strings: negative indices count
from the end, an out-of-range index raises `IndexError`. -/
def pyIdx (l : List String) (i : Int) : Except PyErr String :=
  let j : Int := if i < 0 then (l.length : Int) + i else i
  if j < 0 then Except.error PyErr.indexError
  else
    match l.get? j.toNat with
    | some s => Except.ok s
    | none => Except.error PyErr.indexError

/-- Python `[-1]` on a list known to be nonempty (`str.split` output always
is); the default is never reached. -/
def pyLastStr (l : List String) : String :=
  (l.getLast?).getD ""

/-! ### Python `float()` on decimal strings -/

/-- Split a character list on `'.'`. -/
def splitDot : List Char → List (List Char)
  | [] => [[]]
  | c :: rest =>
    match splitDot rest with
    | [] => []
    | p :: ps => if c = '.' then [] :: p :: ps else (c :: p) :: ps

/-- Numeric value of a list of decimal digits. -/
def digitsVal (ds : List Char) : Nat :=
  ds.foldl (fun n c => n * 10 + (c.toNat - 48)) 0

/-- Python `float(s)` on plain decimal literals (optional sign, digits,
optional single decimal point): `some` of the exact value when the string
parses, `none` when `float` would raise `ValueError`. -/
def parseDecimal? (s : String) : Option Rat :=
  let signBody : Int × List Char :=
    match s.data with
    | '-' :: rest => (-1, rest)
    | '+' :: rest => (1, rest)
    | l => (1, l)
  match splitDot signBody.2 with
  | [intPart] =>
    if !intPart.isEmpty && intPart.all (·.isDigit) then
      some ((signBody.1 * (digitsVal intPart : Int) : Int) : Rat)
    else none
  | [intPart, fracPart] =>
    if !(intPart ++ fracPart).isEmpty && (intPart ++ fracPart).all (·.isDigit) then
      some (((signBody.1 * ((digitsVal intPart * 10 ^ fracPart.length + digitsVal fracPart : Nat) : Int) : Int) : Rat) / ((10 : Rat) ^ fracPart.length))
    else none
  | _ => none

/-! ### Python dict / set primitives -/

/-- Lookup in an insertion-ordered dict. -/
def dictLookup {α : Type} : List (String × α) → String → Option α
  | [], _ => none
  | p :: rest, k => if p.1 = k then some p.2 else dictLookup rest k

/-- Python `d[k] = v`: rewrite an existing key in place, else append. -/
def dictInsert {α : Type} : List (String × α) → String → α → List (String × α)
  | [], k, v => [(k, v)]
  | p :: rest, k, v => if p.1 = k then (k, v) :: rest else p :: dictInsert rest k v

/-- Python `s.add(x)` on a set modelled as a duplicate-free list. -/
def setAdd (s : List String) (x : String) : List String :=
  if x ∈ s then s else s ++ [x]

/-- Python `d[k].add(x)` on a dict of sets whose key is known to be present
(the source only does this for keys created up front; on a genuinely absent
key Python would raise `KeyError`, a case unreachable in the embedded calls). -/
def addToSetKey : List (String × List String) → String → String → List (String × List String)
  | [], _, _ => []
  | p :: rest, k, x => if p.1 = k then (p.1, setAdd p.2 x) :: rest else p :: addToSetKey rest k x

/-- Membership of `x` in the optional set `o` (used to phrase dict-of-set
lookups). -/
def setMem (o : Option (List String)) (x : String) : Prop :=
  ∃ l, o = some l ∧ x ∈ l

/-! ### The source's fixed-size-50 chunking idiom
`for i in range(0, len(xs), 50): chunk = xs[i:i + 50]` -/

/-- Worker for `pyChunks`; `fuel` bounds the recursion (callers pass the
input length, which always suffices since each step drops at least one
element from a nonempty list). -/
def pyChunksFuel {α : Type} : Nat → List α → List (List α)
  | _, [] => []
  | 0, l => [l]
  | fuel + 1, x :: xs => ((x :: xs).take 50) :: pyChunksFuel fuel ((x :: xs).drop 50)

/-- The batches visited by `for i in range(0, len(xs), 50)` with slices
`xs[i:i + 50]`, as in `_get_target_ids_as_chembl` and `get_target_ids`. -/
def pyChunks {α : Type} (l : List α) : List (List α) :=
  pyChunksFuel l.length l

/-! ### ChEMBL data model (records returned by the remote service) -/

/-- A molecule record of the compound database (`new_client.molecule`). -/
structure MolEntry where
  molecule_chembl_id : String
  synonyms : List String
deriving DecidableEq

/-- A `new_client.similarity` result record. -/
structure SimEntry where
  molecule_chembl_id : String
  similarity : Rat
deriving DecidableEq

/-- One element of a similarity result list: a bare id when
`show_similarity` is false, an id paired with its score when true. -/
inductive SimItem where
  | bare (id : String)
  | scored (id : String) (score : Rat)
deriving DecidableEq

/-- The ChEMBL id carried by a similarity result element. -/
def SimItem.itemId : SimItem → String
  | .bare i => i
  | .scored i _ => i

/-- A `new_client.molecule_form` record: a (parent, form) pair. -/
structure FormRec where
  parent_chembl_id : String
  molecule_chembl_id : String
deriving DecidableEq

/-- A `new_client.activity` record (fields used by the source). -/
structure Activity where
  molecule_chembl_id : String
  standard_value : Option String
  standard_units : Option String
  target_chembl_id : String
  target_organism : String
deriving DecidableEq

/-- One entry of a target record's `target_components` list. -/
structure TargetComponent where
  accession : String
deriving DecidableEq

/-- A `new_client.target` record (fields used by the source). -/
structure TargetRec where
  target_chembl_id : String
  target_type : String
  target_components : List TargetComponent
deriving DecidableEq

/-- The remote compound database, abstracted as in-memory record lists;
the client's `.filter(...)` calls become `List.filter` over these. -/
structure ChemblDB where
  forms : List FormRec
  activities : List Activity
  targets : List TargetRec

/-! ### chembl.py: identifier resolver -/

/-- `inspect_synonyms(entry, term)`:
`term.lower() in {x["molecule_synonym"].lower() for x in entry["molecule_synonyms"]}`. -/
def inspect_synonyms (entry : MolEntry) (term : String) : Bool :=
  entry.synonyms.any (fun x => pyLower x = pyLower term)

/-- The body of the `for compound in compounds` loop of `get_chembl_id`:
try the exact preferred-name lookup, fall back to the synonym-filtered
search, skip on zero candidates, else store the first candidate's id. -/
def gciStep (exact search : String → List MolEntry) (ids : List (String × String)) (compound : String) : List (String × String) :=
  let res := exact compound
  let res := if res.length = 0 then (search compound).filter (fun i => inspect_synonyms i compound) else res
  match res with
  | [] => ids
  | e :: _ => dictInsert ids compound e.molecule_chembl_id

/-- `get_chembl_id(compounds)`.  The remote capabilities are parameters:
`exact name` models `molecule.filter(pref_name__iexact=name)` and
`search name` models `molecule.search(name)`. -/
def get_chembl_id (exact search : String → List MolEntry) (compounds : List String) : List (String × String) :=
  compounds.foldl (gciStep exact search) []

/-- The per-name resolution outcome of `get_chembl_id`: the first exact
match, else the first synonym-filtered search match, else `none`. -/
def resolveOutcome (exact search : String → List MolEntry) (name : String) : Option String :=
  let res := exact name
  let res := if res.length = 0 then (search name).filter (fun i => inspect_synonyms i name) else res
  match res with
  | [] => none
  | e :: _ => some e.molecule_chembl_id

/-! ### chembl.py: similarity expansion -/

/-- The `for entry in res` loop of `get_similar_molecules` for one query
compound: a result equal to the query id itself is skipped, every other
result is appended (with its score when `show_similarity`). -/
def mkSimilars (qsim : String → Rat → List SimEntry) (similarity : Rat) (show_similarity : Bool) (compound : String) : List SimItem :=
  (qsim compound similarity).foldl
    (fun acc entry =>
      if entry.molecule_chembl_id = compound then acc
      else if show_similarity then acc ++ [SimItem.scored entry.molecule_chembl_id entry.similarity]
      else acc ++ [SimItem.bare entry.molecule_chembl_id])
    []

/-- The `for entry in res` loop of `get_similar_molecules_smile` for one
query structure: every result is appended, with no self-exclusion. -/
def mkSimilarsSmile (qsim : String → Rat → List SimEntry) (similarity : Rat) (show_similarity : Bool) (compound : String) : List SimItem :=
  (qsim compound similarity).foldl
    (fun acc entry =>
      if show_similarity then acc ++ [SimItem.scored entry.molecule_chembl_id entry.similarity]
      else acc ++ [SimItem.bare entry.molecule_chembl_id])
    []

/-- `get_similar_molecules(chembl_ids, similarity, show_similarity)`;
`qsim c s` models `similarity_query.filter(chembl_id=c, similarity=s)`. -/
def get_similar_molecules (qsim : String → Rat → List SimEntry) (chembl_ids : List String) (similarity : Rat) (show_similarity : Bool) : List (String × List SimItem) :=
  chembl_ids.foldl (fun sm compound => dictInsert sm compound (mkSimilars qsim similarity show_similarity compound)) []

/-- `get_similar_molecules_smile(smiles, similarity, show_similarity)`;
`qsim c s` models `similarity_query.filter(smiles=c, similarity=s)`. -/
def get_similar_molecules_smile (qsim : String → Rat → List SimEntry) (smiles : List String) (similarity : Rat) (show_similarity : Bool) : List (String × List SimItem) :=
  smiles.foldl (fun sm compound => dictInsert sm compound (mkSimilarsSmile qsim similarity show_similarity compound)) []

/-! ### chembl.py: `_get_target_ids_as_chembl`, stage A (form closure) -/

/-- `new_client.molecule_form.filter(parent_chembl_id__in=batch)`. -/
def formsByParentIn (fdb : List FormRec) (batch : List String) : List FormRec :=
  fdb.filter (fun f => f.parent_chembl_id ∈ batch)

/-- `new_client.molecule_form.filter(molecule_chembl_id__in=batch)`. -/
def formsByMoleculeIn (fdb : List FormRec) (batch : List String) : List FormRec :=
  fdb.filter (fun f => f.molecule_chembl_id ∈ batch)

/-- The `ID_forms` dict after both directional molecule-form loops of
`_get_target_ids_as_chembl`: per input id, the set of form ids collected
from the parent→form query plus the parent ids from the form→parent query. -/
def stageA (fdb : List FormRec) (chembl_ids : List String) : List (String × List String) :=
  let d0 : List (String × List String) := chembl_ids.foldl (fun d x => dictInsert d x []) []
  let d1 := (pyChunks chembl_ids).foldl
    (fun d chunk => (formsByParentIn fdb chunk).foldl
      (fun d f => addToSetKey d f.parent_chembl_id f.molecule_chembl_id) d)
    d0
  (pyChunks chembl_ids).foldl
    (fun d chunk => (formsByMoleculeIn fdb chunk).foldl
      (fun d f => addToSetKey d f.molecule_chembl_id f.parent_chembl_id) d)
    d1

/-- The `values` list: `for x in ID_forms.values(): values.extend(x)`. -/
def stageAValues (idForms : List (String × List String)) : List String :=
  idForms.foldl (fun acc p => acc ++ p.2) []

/-! ### chembl.py: stage B (reverse index `forms_to_ID`) -/

/-- The `forms_to_ID` dict: keys are the distinct form ids of `values`
(each first initialised to `set()`, modelled as `none`), and
`for k in forms_to_ID: for parent, molecule in ID_forms.items():
if k in molecule: forms_to_ID[k] = parent` assigns the last matching
family's key. -/
def stageB (idForms : List (String × List String)) : List (String × Option String) :=
  let values := stageAValues idForms
  let keys := values.foldl (fun ks x => if x ∈ ks then ks else ks ++ [x]) []
  keys.map (fun k => (k, idForms.foldl (fun acc p => if k ∈ p.2 then some p.1 else acc) none))

/-- The key of the last family of `idForms` containing `f` (the
"last-write-wins" owner of form id `f`). -/
def lastOwner (idForms : List (String × List String)) (f : String) : Option String :=
  (idForms.reverse.find? (fun p => decide (f ∈ p.2))).map Prod.fst

/-! ### chembl.py: stage C (activity filtering) -/

/-- Django-style `target_organism__istartswith=organism`. -/
def istartswith (s pre : String) : Bool :=
  isPrefixCh (pyLower pre).data (pyLower s).data

/-- `new_client.activity.filter(molecule_chembl_id__in=batch)
.filter(target_organism__istartswith=organism)`. -/
def activityFilterIn (adb : List Activity) (batch : List String) (organism : String) : List Activity :=
  adb.filter (fun a => a.molecule_chembl_id ∈ batch && istartswith a.target_organism organism)

/-- `standard_val < standard_value_threshold`, where a threshold of `none`
stands for the `float("Inf")` default (every value is below it). -/
def ltInf (v : Rat) (thr : Option Rat) : Bool :=
  match thr with
  | none => true
  | some t => decide (v < t)

/-- The condition under which an activity record is kept by the stage-C
filter: its potency string parses as a number, that number is strictly
below the threshold, and its unit is exactly `"nM"`. -/
def keptRecord (thr : Option Rat) (act : Activity) : Bool :=
  match act.standard_value with
  | none => false
  | some s =>
    match parseDecimal? s with
    | none => false
    | some v => ltInf v thr && decide (act.standard_units = some "nM")

/-- The body of the `for act in activities` loop of
`_get_target_ids_as_chembl`.  `float(None)` raises `TypeError`, which the
`except TypeError` clause turns into a skip; `float` of a non-numeric string
raises `ValueError`, which nothing catches; when the record is kept,
`compounds2targets[forms_to_ID[act["molecule_chembl_id"]]].add(...)` adds
its target id to the owning compound's set (a stale `set()` value in
`forms_to_ID` would make the dict subscript raise `TypeError` — also caught;
a missing key would raise an uncaught `KeyError`). -/
def procAct (thr : Option Rat) (fti : List (String × Option String)) (c2t : List (String × List String)) (act : Activity) : Except PyErr (List (String × List String)) :=
  match act.standard_value with
  | none => Except.ok c2t
  | some s =>
    match parseDecimal? s with
    | none => Except.error PyErr.valueError
    | some v =>
      if ltInf v thr && decide (act.standard_units = some "nM") then
        match dictLookup fti act.molecule_chembl_id with
        | some (some owner) =>
          match dictLookup c2t owner with
          | some cur => Except.ok (dictInsert c2t owner (setAdd cur act.target_chembl_id))
          | none => Except.error PyErr.keyError
        | some none => Except.ok c2t
        | none => Except.error PyErr.keyError
      else Except.ok c2t

/-- The `for act in activities` loop over one batch of activity records. -/
def procActs (thr : Option Rat) (fti : List (String × Option String)) : List Activity → List (String × List String) → Except PyErr (List (String × List String))
  | [], c2t => Except.ok c2t
  | act :: rest, c2t =>
    match procAct thr fti c2t act with
    | Except.ok c2t' => procActs thr fti rest c2t'
    | Except.error e => Except.error e

/-- `_get_target_ids_as_chembl(chembl_ids, organism, standard_value_threshold)`,
stages A–C composed: returns the compound → target-id-set dict, or the
uncaught exception the Python function would raise. -/
def getTargetIdsAsChembl (db : ChemblDB) (chembl_ids : List String) (organism : String) (thr : Option Rat) : Except PyErr (List (String × List String)) :=
  let c2t0 : List (String × List String) := chembl_ids.foldl (fun d x => dictInsert d x []) []
  let idForms := stageA db.forms chembl_ids
  let fti := stageB idForms
  let values := stageAValues idForms
  (pyChunks values).foldlM
    (fun c2t chunk => procActs thr fti (activityFilterIn db.activities chunk organism) c2t)
    c2t0

/-! ### chembl.py: `get_target_ids`, stage D (accession projection) -/

/-- `new_client.target.filter(target_chembl_id__in=batch)`. -/
def targetsIn (tdb : List TargetRec) (batch : List String) : List TargetRec :=
  tdb.filter (fun t => t.target_chembl_id ∈ batch)

/-- The body of the `for target in targets` loop of `get_target_ids`:
only records with `target_type == "SINGLE PROTEIN"` contribute, and those
contribute every component's accession code. -/
def addTargetAccs (u : List String) (t : TargetRec) : List String :=
  if t.target_type = "SINGLE PROTEIN" then
    t.target_components.foldl (fun u c => setAdd u c.accession) u
  else u

/-- The accession set computed for one compound's target-id list by the
chunked target loop of `get_target_ids`. -/
def stageDper (tdb : List TargetRec) (tids : List String) : List String :=
  (pyChunks tids).foldl (fun uniprots chunk => (targetsIn tdb chunk).foldl addTargetAccs uniprots) []

/-- `get_target_ids(chembl_ids, organism, ignore_empty, standard_value_threshold)`:
stage A–C dict projected through stage D, then optionally stripped of
empty sets. -/
def getTargetIds (db : ChemblDB) (chembl_ids : List String) (organism : String) (ignore_empty : Bool) (thr : Option Rat) : Except PyErr (List (String × List String)) :=
  (getTargetIdsAsChembl db chembl_ids organism thr).map
    (fun c2t =>
      let m := c2t.map (fun p => (p.1, stageDper db.targets p.2))
      if ignore_empty then m.filter (fun p => decide (p.2.length > 0)) else m)

/-! ### uniprot.py: annotation fetching

`get_uniprot_data(identifier)` is modelled by a parameter
`fetch : String → Except HTTPFailure (List String)` returning the decoded
annotation text lines, or the `urllib.error.HTTPError` it raises. -/

/-- Python `err.code == 404 or err.code == 300`: the response classes the
source treats as "entry absent" (warn and skip). -/
def skippableCode (c : Nat) : Bool :=
  c = 404 || c = 300

/-- Does `fetch` fail on `id` with an HTTP error that the source does NOT
swallow (i.e. neither 404 nor 300)? -/
def badFetch (fetch : String → Except HTTPFailure (List String)) (id : String) : Bool :=
  match fetch id with
  | Except.error e => !skippableCode e.code
  | Except.ok _ => false

/-- The body of the `for line in data` loop of `get_go_from_uniprot_id`:
on a `DR   GO` line, `line.split(";")[1].strip()` is appended to the codes
and `line.split(":")[-2].split(";")[-2]` to the names (an out-of-range
index would raise `IndexError`, which nothing catches). -/
def procGoLine (st : List String × List String) (line : String) : Except PyErr (List String × List String) :=
  if pyStartsWith line "DR   GO" then
    match pyIdx (pySplit line ";") 1 with
    | Except.error e => Except.error e
    | Except.ok codeRaw =>
      match pyIdx (pySplit line ":") (-2) with
      | Except.error e => Except.error e
      | Except.ok colPart =>
        match pyIdx (pySplit colPart ";") (-2) with
        | Except.error e => Except.error e
        | Except.ok name => Except.ok (st.1 ++ [pyStrip pyWhitespace codeRaw], st.2 ++ [name])
  else Except.ok st

/-- The full line scan of `get_go_from_uniprot_id` over one record's text. -/
def goScan (lines : List String) : Except PyErr (List String × List String) :=
  lines.foldlM procGoLine ([], [])

/-- Does scanning the text fetched for `id` stay clear of `IndexError`?
(Trivially true when the fetch itself fails.) -/
def goLinesOk (fetch : String → Except HTTPFailure (List String)) (id : String) : Bool :=
  match fetch id with
  | Except.ok lines => (goScan lines).isOk
  | Except.error _ => true

/-- The identifier loop of `get_go_from_uniprot_id`, accumulating dict `d`:
a 404/300 fetch failure warns and skips the identifier, any other
`HTTPError` is re-raised, and a successful fetch stores
`list(zip(go_codes, go_names))` under the identifier. -/
def getGoAux (fetch : String → Except HTTPFailure (List String)) : List String → List (String × List (String × String)) → Except PyErr (List (String × List (String × String)))
  | [], d => Except.ok d
  | id :: rest, d =>
    match fetch id with
    | Except.error e =>
      if skippableCode e.code then getGoAux fetch rest d
      else Except.error (PyErr.httpError e)
    | Except.ok lines =>
      match goScan lines with
      | Except.error e => Except.error e
      | Except.ok st => getGoAux fetch rest (dictInsert d id (st.1.zip st.2))

/-- `get_go_from_uniprot_id(uniprot_ids)`. -/
def getGoFromUniprotId (fetch : String → Except HTTPFailure (List String)) (ids : List String) : Except PyErr (List (String × List (String × String))) :=
  getGoAux fetch ids []

/-! ### uniprot.py: `get_uniprot_name` -/

/-- Is this the record-name line the scan looks for? -/
def isRecNameLine (line : String) : Bool :=
  pyStartsWith line "DE   RecName:"

/-- `line.split("Full=")[-1].strip(";\n")`. -/
def extractRecName (line : String) : String :=
  pyStrip [';', '\n'] (pyLastStr (pySplit line "Full="))

/-- The identifier loop of `get_uniprot_name`, threading the Python local
variable `name` (which survives from one iteration to the next) as
`nameVar`.  When a record has no `DE   RecName:` line, the trailing
`uniprot_name_dict[identifier] = name` reads the stale value — or raises
an unbound-local `NameError` when no earlier iteration assigned it. -/
def getUniprotNameAux (fetch : String → Except HTTPFailure (List String)) : List String → Option String × List (String × String) → Except PyErr (Option String × List (String × String))
  | [], st => Except.ok st
  | id :: rest, st =>
    match fetch id with
    | Except.error e =>
      if skippableCode e.code then getUniprotNameAux fetch rest st
      else Except.error (PyErr.httpError e)
    | Except.ok lines =>
      let nv : Option String :=
        match lines.find? isRecNameLine with
        | some line => some (extractRecName line)
        | none => st.1
      match nv with
      | some n => getUniprotNameAux fetch rest (some n, dictInsert st.2 id n)
      | none => Except.error PyErr.nameError

/-- `get_uniprot_name(uniprot_ids)`. -/
def getUniprotName (fetch : String → Except HTTPFailure (List String)) (ids : List String) : Except PyErr (List (String × String)) :=
  (getUniprotNameAux fetch ids (none, [])).map Prod.snd

/-- The record names successfully extracted while processing `ids` in
order: one entry per identifier whose fetch succeeds and whose text has a
`DE   RecName:` line. -/
def extractedNames (fetch : String → Except HTTPFailure (List String)) (ids : List String) : List String :=
  ids.filterMap
    (fun id =>
      match fetch id with
      | Except.ok lines => (lines.find? isRecNameLine).map extractRecName
      | Except.error _ => none)

/-! ### uniprot.py: `_get_gene_name` -/

/-- The characters before the first `';'` or `' '`, or `none` when no such
terminator follows (the regex lookahead fails). -/
def takeUntilTerm : List Char → Option (List Char)
  | [] => none
  | c :: cs => if c = ';' ∨ c = ' ' then some [] else (takeUntilTerm cs).map (c :: ·)

/-- Scan for the regex `(?<=GN=)(.*?)(?=;| )`: the first `GN=` occurrence
after which a `';'` or `' '` terminator exists, capturing lazily up to it. -/
def geneNameAux : List Char → Option (List Char)
  | c1 :: c2 :: c3 :: rest =>
    if c1 = 'G' ∧ c2 = 'N' ∧ c3 = '=' then
      match takeUntilTerm rest with
      | some v => some v
      | none => geneNameAux (c2 :: c3 :: rest)
    else geneNameAux (c2 :: c3 :: rest)
  | _ => none

/-- `re.search("(?<=GN=)(.*?)(?=;| )", messy_string)`, as the captured
group: the value `result.group(1)` would hold. -/
def geneNameSearch (s : String) : Option String :=
  (geneNameAux s.data).map (fun l => String.mk l)

/-- `_get_gene_name(messy_string)` as written in the source: after the
regex search is computed into `result`, the guard reads `if out is None` —
but no name `out` is bound anywhere in the module, so every call raises
`NameError` before either the `RuntimeError` branch or the
`return result.group(1)` line can run. -/
def pyGetGeneName (messy_string : String) : Except PyErr String :=
  let _result := geneNameSearch messy_string
  Except.error PyErr.nameError

/-! ### Concrete inputs used to instantiate the theorems below -/

/-- A kept activity record: parseable potency below 100, unit `"nM"`. -/
def actW : Activity := ⟨"F1", some "50", some "nM", "T1", "Homo sapiens"⟩

/-- An activity record whose potency string is not a number. -/
def actBad : Activity := ⟨"F1", some "no data", some "nM", "T1", "Homo sapiens"⟩

/-- An activity record with no potency value (`standard_value` is `None`). -/
def actNoneVal : Activity := ⟨"F1", none, some "nM", "T1", "Homo sapiens"⟩

/-- A small molecule-form database: compound `C1` owns forms `F1` and `C1`
itself, compound `C2` owns form `F2`. -/
def fdbW : List FormRec := [⟨"C1", "F1"⟩, ⟨"C1", "C1"⟩, ⟨"C2", "F2"⟩]

/-- A small target database: one single-protein target with two components
and one protein-complex target. -/
def tdbW : List TargetRec :=
  [⟨"T1", "SINGLE PROTEIN", [⟨"P1"⟩, ⟨"P2"⟩]⟩, ⟨"T2", "PROTEIN COMPLEX", [⟨"P3"⟩]⟩]

/-- An exact-lookup capability knowing only the name `"aspirin"`. -/
def exactW : String → List MolEntry :=
  fun n => if n = "aspirin" then [⟨"CHEMBL25", ["aspirin"]⟩] else []

/-- A search capability returning nothing. -/
def searchW : String → List MolEntry := fun _ => []

/-- A similarity capability that returns the query itself (a 100% self
match) followed by one genuine neighbour. -/
def qsimW : String → Rat → List SimEntry :=
  fun c _ => [⟨c, 100⟩, ⟨"CHEMBL2", 95⟩]

/-- A well-formed `DR   GO` annotation line. -/
def goLineW : String := "DR   GO; GO:0005576; C:extracellular region; IEA:UniProtKB-SubCell."

/-- An annotation fetch capability failing with 404 on `"A"` and returning
one GO line otherwise. -/
def fetchW : String → Except HTTPFailure (List String) :=
  fun id => if id = "A" then Except.error ⟨404⟩ else Except.ok [goLineW]

/-- A well-formed `DE   RecName:` annotation line. -/
def recLineW : String := "DE   RecName: Full=Proto name;"

/-- An annotation fetch capability whose `"P1"` record has a record-name
line and whose other records have none. -/
def fetchN : String → Except HTTPFailure (List String) :=
  fun id => if id = "P1" then Except.ok [recLineW] else Except.ok ["CC   nothing"]

/-- A FASTA header line containing a `GN=` gene-name token. -/
def fastaHeaderW : String :=
  ">sp|P31946|1433B_HUMAN 14-3-3 protein beta/alpha OS=Homo sapiens OX=9606 GN=YWHAB PE=1 SV=3"

/-! ## Helper lemmas -/

theorem setAdd_mem (s : List String) (x a : String) : a ∈ setAdd s x ↔ a ∈ s ∨ a = x := by
  unfold setAdd
  by_cases h : x ∈ s
  · simp only [if_pos h]
    constructor
    · exact Or.inl
    · rintro (ha | rfl)
      · exact ha
      · exact h
  · simp [if_neg h]

theorem setMem_some (l : List String) (x : String) : setMem (some l) x ↔ x ∈ l := by
  simp [setMem]

theorem dictLookup_dictInsert_self {α : Type} (d : List (String × α)) (k : String) (v : α) :
    dictLookup (dictInsert d k v) k = some v := by
  induction d with
  | nil => simp [dictInsert, dictLookup]
  | cons p rest ih =>
    by_cases h : p.1 = k
    · simp [dictInsert, h, dictLookup]
    · simp [dictInsert, h, dictLookup, ih]

theorem dictLookup_dictInsert_ne {α : Type} (d : List (String × α)) (k k' : String) (v : α)
    (h : k' ≠ k) : dictLookup (dictInsert d k v) k' = dictLookup d k' := by
  induction d with
  | nil => simp [dictInsert, dictLookup, Ne.symm h]
  | cons p rest ih =>
    by_cases hp : p.1 = k
    · subst hp
      simp [dictInsert, dictLookup, Ne.symm h]
    · simp only [dictInsert, if_neg hp, dictLookup]
      by_cases hk : p.1 = k'
      · simp [hk]
      · simp [hk, ih]

theorem dictLookup_dictInsert_isSome {α : Type} (d : List (String × α)) (k x : String) (v : α) :
    (dictLookup (dictInsert d k v) x).isSome = true ↔ x = k ∨ (dictLookup d x).isSome = true := by
  by_cases h : x = k
  · subst h
    simp [dictLookup_dictInsert_self]
  · rw [dictLookup_dictInsert_ne d k x v h]
    simp [h]

theorem pyChunksFuel_flatten {α : Type} (fuel : Nat) (l : List α) (h : l.length ≤ fuel) :
    (pyChunksFuel fuel l).flatten = l := by
  induction fuel generalizing l with
  | zero =>
    have : l = [] := List.eq_nil_of_length_eq_zero (Nat.le_zero.mp h)
    subst this
    rfl
  | succ fuel ih =>
    cases l with
    | nil => rfl
    | cons x xs =>
      simp only [pyChunksFuel, List.flatten_cons]
      rw [ih ((x :: xs).drop 50) (by simp [List.length_drop] at h ⊢; omega)]
      exact List.take_append_drop 50 (x :: xs)

theorem pyChunks_flatten {α : Type} (l : List α) : (pyChunks l).flatten = l :=
  pyChunksFuel_flatten l.length l le_rfl

theorem mem_pyChunks {α : Type} (l : List α) (x : α) :
    (∃ c ∈ pyChunks l, x ∈ c) ↔ x ∈ l := by
  rw [← List.mem_flatten, pyChunks_flatten]

/-! ## Claim theorems -/

/-- C6: for every input list, the fixed-size-50 chunked batch iteration of
the Target Mapper visits every input element exactly once across all
chunks: the chunks concatenate back to the input, and for every element
the per-chunk occurrence counts sum to its count in the input — so a union
of per-chunk results equals the whole-input result regardless of whether
the length is a multiple of 50. -/
theorem c6_chunk_cover (l : List String) :
    (pyChunks l).flatten = l ∧
    ∀ x, ((pyChunks l).map (fun c => c.count x)).sum = l.count x := by
  refine ⟨pyChunks_flatten l, fun x => ?_⟩
  rw [← List.count_flatten, pyChunks_flatten]

/-- C1: in the stage-C activity filter of `_get_target_ids_as_chembl`, a
record that is processed without an uncaught exception adds its target id
to the owning compound's set if and only if its potency parses as a
number strictly below the threshold and its unit string equals `"nM"`
(and the record's form id resolves to that compound through the reverse
index); in particular a `"uM"` record is never kept regardless of its
value, and an `"nM"` record whose potency equals the threshold exactly is
not kept. -/
theorem c1_activity_filtering (thr : Option Rat) (fti : List (String × Option String))
    (c2t : List (String × List String)) (act : Activity) (c2t' : List (String × List String))
    (h : procAct thr fti c2t act = Except.ok c2t') :
    (∀ k tid, setMem (dictLookup c2t' k) tid ↔
      (setMem (dictLookup c2t k) tid ∨
        (keptRecord thr act = true ∧
         dictLookup fti act.molecule_chembl_id = some (some k) ∧
         tid = act.target_chembl_id)))
    ∧ (act.standard_units = some "uM" → keptRecord thr act = false)
    ∧ (∀ t s, thr = some t → act.standard_value = some s → parseDecimal? s = some t →
        keptRecord thr act = false) := by
  refine ⟨?_, ?_, ?_⟩
  · intro k tid
    cases hv : act.standard_value with
    | none =>
      simp only [procAct, hv] at h
      cases h
      simp [keptRecord, hv]
    | some s =>
      cases hp : parseDecimal? s with
      | none => simp [procAct, hv, hp] at h
      | some v =>
        simp only [procAct, hv, hp] at h
        by_cases hc : (ltInf v thr && decide (act.standard_units = some "nM")) = true
        · rw [if_pos hc] at h
          have hkept : keptRecord thr act = true := by simp [keptRecord, hv, hp, hc]
          cases hf : dictLookup fti act.molecule_chembl_id with
          | none => simp [hf] at h
          | some o =>
            simp only [hf] at h
            cases o with
            | none =>
              cases h
              simp only [hkept, hf, true_and]
              constructor
              · exact Or.inl
              · rintro (hm | ⟨hcontra, _⟩)
                · exact hm
                · cases hcontra
            | some owner =>
              cases hcur : dictLookup c2t owner with
              | none => simp [hcur] at h
              | some cur =>
                simp only [hcur, Except.ok.injEq] at h
                subst h
                by_cases hk : k = owner
                · subst hk
                  rw [dictLookup_dictInsert_self, hcur]
                  simp only [setMem_some, setAdd_mem, hkept, hf, Option.some.injEq, true_and]
                · rw [dictLookup_dictInsert_ne c2t owner k (setAdd cur act.target_chembl_id) hk]
                  simp only [hkept, hf, Option.some.injEq, true_and]
                  constructor
                  · exact Or.inl
                  · rintro (hm | ⟨hko, _⟩)
                    · exact hm
                    · exact absurd hko.symm hk
        · rw [if_neg hc] at h
          cases h
          have hkept : keptRecord thr act = false := by
            simp only [keptRecord, hv, hp]
            exact Bool.not_eq_true _ |>.mp hc
          simp [hkept]
  · intro hu
    cases hv : act.standard_value with
    | none => simp [keptRecord, hv]
    | some s =>
      cases hp : parseDecimal? s with
      | none => simp [keptRecord, hv, hp]
      | some v => simp [keptRecord, hv, hp, hu]
  · intro t s ht hs hps
    subst ht
    simp [keptRecord, hs, hps, ltInf]

/-- C1 witness: a concrete `"nM"` record with potency 50 under threshold
100 is added to its owning compound's set. -/
theorem c1_activity_filtering_witness :
    setMem (dictLookup [("C1", ["T1"])] "C1") "T1" ↔
      (setMem (dictLookup [("C1", ([] : List String))] "C1") "T1" ∨
        (keptRecord (some 100) actW = true ∧
         dictLookup [("F1", some "C1")] actW.molecule_chembl_id = some (some "C1") ∧
         "T1" = actW.target_chembl_id)) :=
  (c1_activity_filtering (some 100) [("F1", some "C1")] [("C1", [])] actW [("C1", ["T1"])]
    (by decide)).1 "C1" "T1"

/-- C4 counterexample: an activity record whose potency field is a
non-numeric string is NOT skipped — `float` raises `ValueError`, which the
`except TypeError` clause does not catch, so the loop aborts. -/
theorem c4_counterexample :
    actBad.standard_value = some "no data" ∧
    parseDecimal? "no data" = none ∧
    procAct (some 100) [("F1", some "C1")] [("C1", [])] actBad = Except.error PyErr.valueError := by
  refine ⟨rfl, by decide, by decide⟩

/-- C4 (amended): a record whose potency field is missing (`None`, so that
`float` raises the caught `TypeError`) is skipped without error and the
rest of the batch is processed as if the record were absent; a record
whose potency is a non-numeric string instead raises an uncaught
`ValueError`. -/
theorem c4_missing_potency_skipped (thr : Option Rat) (fti : List (String × Option String))
    (acts1 acts2 : List Activity) (act : Activity) (c2t : List (String × List String))
    (h : act.standard_value = none) :
    procActs thr fti (acts1 ++ act :: acts2) c2t = procActs thr fti (acts1 ++ acts2) c2t := by
  induction acts1 generalizing c2t with
  | nil => simp [procActs, procAct, h]
  | cons a rest ih =>
    simp only [List.cons_append, procActs]
    cases procAct thr fti c2t a with
    | ok c2t' => exact ih c2t'
    | error e => rfl

/-- C4 witness: a concrete record with `standard_value = None` inside a
batch is skipped and processing continues. -/
theorem c4_missing_potency_skipped_witness :
    procActs (some 100) [("F1", some "C1")] [actNoneVal, actW] [("C1", [])] =
      procActs (some 100) [("F1", some "C1")] [actW] [("C1", [])] :=
  c4_missing_potency_skipped (some 100) [("F1", some "C1")] [] [actW] actNoneVal [("C1", [])] rfl

/-- C7: the claim describes the documented intent of `_get_gene_name`
(return the substring between `GN=` and the next `;` or space, parse error
only when the token is absent), but the code's guard reads the unbound
name `out` instead of `result`, so every call — including one on a header
that contains the token, whose regex search does produce `"YWHAB"` —
raises `NameError` instead of returning. -/
theorem c7_gene_name_unreachable :
    geneNameSearch fastaHeaderW = some "YWHAB" ∧
    pyGetGeneName fastaHeaderW = Except.error PyErr.nameError ∧
    (∀ s, pyGetGeneName s = Except.error PyErr.nameError) :=
  ⟨by decide, rfl, fun _ => rfl⟩

theorem mem_accFold (comps : List TargetComponent) (u : List String) (a : String) :
    a ∈ comps.foldl (fun u c => setAdd u c.accession) u ↔
      a ∈ u ∨ ∃ c ∈ comps, c.accession = a := by
  induction comps generalizing u with
  | nil => simp
  | cons c rest ih =>
    rw [List.foldl_cons, ih, setAdd_mem]
    simp only [List.mem_cons]
    constructor
    · rintro ((hu | rfl) | ⟨x, hx, ha⟩)
      · exact Or.inl hu
      · exact Or.inr ⟨c, Or.inl rfl, rfl⟩
      · exact Or.inr ⟨x, Or.inr hx, ha⟩
    · rintro (hu | ⟨x, (rfl | hx), ha⟩)
      · exact Or.inl (Or.inl hu)
      · exact Or.inl (Or.inr ha.symm)
      · exact Or.inr ⟨x, hx, ha⟩

theorem mem_addTargetAccsFold (ts : List TargetRec) (u : List String) (a : String) :
    a ∈ ts.foldl addTargetAccs u ↔
      a ∈ u ∨ ∃ t ∈ ts, t.target_type = "SINGLE PROTEIN" ∧
        ∃ c ∈ t.target_components, c.accession = a := by
  induction ts generalizing u with
  | nil => simp
  | cons t rest ih =>
    rw [List.foldl_cons, ih]
    unfold addTargetAccs
    by_cases ht : t.target_type = "SINGLE PROTEIN"
    · rw [if_pos ht, mem_accFold]
      constructor
      · rintro ((hu | ⟨c, hc, ha⟩) | ⟨t', ht', hty, hex⟩)
        · exact Or.inl hu
        · exact Or.inr ⟨t, List.mem_cons_self t rest, ht, c, hc, ha⟩
        · exact Or.inr ⟨t', List.mem_cons_of_mem t ht', hty, hex⟩
      · rintro (hu | ⟨t', ht', hty, hex⟩)
        · exact Or.inl (Or.inl hu)
        · rcases List.mem_cons.mp ht' with rfl | hmem
          · exact Or.inl (Or.inr hex)
          · exact Or.inr ⟨t', hmem, hty, hex⟩
    · rw [if_neg ht]
      constructor
      · rintro (hu | ⟨t', ht', hty, hex⟩)
        · exact Or.inl hu
        · exact Or.inr ⟨t', List.mem_cons_of_mem t ht', hty, hex⟩
      · rintro (hu | ⟨t', ht', hty, hex⟩)
        · exact Or.inl hu
        · rcases List.mem_cons.mp ht' with rfl | hmem
          · exact absurd hty ht
          · exact Or.inr ⟨t', hmem, hty, hex⟩

theorem mem_chunkFold (tdb : List TargetRec) (cs : List (List String)) (u : List String) (a : String) :
    a ∈ cs.foldl (fun u chunk => (targetsIn tdb chunk).foldl addTargetAccs u) u ↔
      a ∈ u ∨ ∃ chunk ∈ cs, ∃ t ∈ targetsIn tdb chunk, t.target_type = "SINGLE PROTEIN" ∧
        ∃ c ∈ t.target_components, c.accession = a := by
  induction cs generalizing u with
  | nil => simp
  | cons ch rest ih =>
    rw [List.foldl_cons, ih, mem_addTargetAccsFold]
    simp only [List.mem_cons]
    constructor
    · rintro ((hu | ⟨t, htin, hty, hex⟩) | ⟨chunk, hch, t, htin, hty, hex⟩)
      · exact Or.inl hu
      · exact Or.inr ⟨ch, Or.inl rfl, t, htin, hty, hex⟩
      · exact Or.inr ⟨chunk, Or.inr hch, t, htin, hty, hex⟩
    · rintro (hu | ⟨chunk, (rfl | hch), t, htin, hty, hex⟩)
      · exact Or.inl (Or.inl hu)
      · exact Or.inl (Or.inr ⟨t, htin, hty, hex⟩)
      · exact Or.inr ⟨chunk, hch, t, htin, hty, hex⟩

/-- C3: in the stage-D accession projection of `get_target_ids`, an
accession code ends up in a compound's output set exactly when some target
record whose id is among the compound's accumulated target ids has type
tag `"SINGLE PROTEIN"` and lists that accession among its components — a
single-protein record contributes every component accession, a record with
any other type tag contributes none. -/
theorem c3_accession_projection (tdb : List TargetRec) (tids : List String) (a : String) :
    a ∈ stageDper tdb tids ↔
      ∃ t ∈ tdb, t.target_chembl_id ∈ tids ∧ t.target_type = "SINGLE PROTEIN" ∧
        ∃ c ∈ t.target_components, c.accession = a := by
  unfold stageDper
  rw [mem_chunkFold]
  simp only [List.not_mem_nil, false_or]
  constructor
  · rintro ⟨chunk, hch, t, htin, hty, hex⟩
    have hm := List.mem_filter.mp htin
    refine ⟨t, hm.1, ?_, hty, hex⟩
    exact (mem_pyChunks tids t.target_chembl_id).mp ⟨chunk, hch, of_decide_eq_true hm.2⟩
  · rintro ⟨t, htdb, htid, hty, hex⟩
    obtain ⟨chunk, hch, hin⟩ := (mem_pyChunks tids t.target_chembl_id).mpr htid
    exact ⟨chunk, hch, t, List.mem_filter.mpr ⟨htdb, decide_eq_true hin⟩, hty, hex⟩

theorem foldl_assign_or (idF : List (String × List String)) (f : String) (acc : Option String) :
    idF.foldl (fun a p => if f ∈ p.2 then some p.1 else a) acc = (lastOwner idF f).or acc := by
  induction idF generalizing acc with
  | nil => simp [lastOwner]
  | cons p rest ih =>
    rw [List.foldl_cons, ih]
    unfold lastOwner
    rw [List.reverse_cons, List.find?_append]
    cases hr : rest.reverse.find? (fun q => decide (f ∈ q.2)) with
    | some q => simp [hr]
    | none =>
      by_cases hf : f ∈ p.2
      · simp [hr, hf, List.find?_cons]
      · simp [hr, hf, List.find?_cons]

theorem dictLookup_map_keys (l : List String) (g : String → Option String) (f : String) :
    dictLookup (l.map (fun k => (k, g k))) f = if f ∈ l then some (g f) else none := by
  induction l with
  | nil => simp [dictLookup]
  | cons k rest ih =>
    simp only [List.map_cons, dictLookup]
    by_cases hk : k = f
    · subst hk
      simp
    · rw [if_neg hk, ih]
      by_cases hf : f ∈ rest
      · simp [hf, List.mem_cons]
      · simp [hf, List.mem_cons, Ne.symm hk]

theorem dedup_mem (values ks0 : List String) (f : String) :
    f ∈ values.foldl (fun ks x => if x ∈ ks then ks else ks ++ [x]) ks0 ↔
      f ∈ ks0 ∨ f ∈ values := by
  induction values generalizing ks0 with
  | nil => simp
  | cons x rest ih =>
    rw [List.foldl_cons, ih]
    by_cases hx : x ∈ ks0
    · rw [if_pos hx]
      simp only [List.mem_cons]
      constructor
      · rintro (h0 | hr)
        · exact Or.inl h0
        · exact Or.inr (Or.inr hr)
      · rintro (h0 | rfl | hr)
        · exact Or.inl h0
        · exact Or.inl hx
        · exact Or.inr hr
    · rw [if_neg hx]
      simp only [List.mem_append, List.mem_singleton, List.mem_cons]
      tauto

theorem stageAValues_mem_aux (idF : List (String × List String)) (acc : List String) (f : String) :
    f ∈ idF.foldl (fun acc p => acc ++ p.2) acc ↔ f ∈ acc ∨ ∃ p ∈ idF, f ∈ p.2 := by
  induction idF generalizing acc with
  | nil => simp
  | cons p rest ih =>
    rw [List.foldl_cons, ih]
    simp only [List.mem_append, List.mem_cons]
    constructor
    · rintro ((ha | hp2) | ⟨q, hq, hf⟩)
      · exact Or.inl ha
      · exact Or.inr ⟨p, Or.inl rfl, hp2⟩
      · exact Or.inr ⟨q, Or.inr hq, hf⟩
    · rintro (ha | ⟨q, (rfl | hq), hf⟩)
      · exact Or.inl (Or.inl ha)
      · exact Or.inl (Or.inr hf)
      · exact Or.inr ⟨q, hq, hf⟩

theorem stageAValues_mem (idF : List (String × List String)) (f : String) :
    f ∈ stageAValues idF ↔ ∃ p ∈ idF, f ∈ p.2 := by
  unfold stageAValues
  rw [stageAValues_mem_aux]
  simp

theorem stageB_lookup (idF : List (String × List String)) (f : String) :
    dictLookup (stageB idF) f =
      if f ∈ stageAValues idF then some (lastOwner idF f) else none := by
  simp only [stageB]
  rw [dictLookup_map_keys]
  by_cases hf : f ∈ stageAValues idF
  · have hkeys : f ∈ (stageAValues idF).foldl (fun ks x => if x ∈ ks then ks else ks ++ [x]) [] :=
      (dedup_mem _ _ _).mpr (Or.inr hf)
    rw [if_pos hkeys, if_pos hf, foldl_assign_or, Option.or_none]
  · have hkeys : f ∉ (stageAValues idF).foldl (fun ks x => if x ∈ ks then ks else ks ++ [x]) [] := by
      intro hmem
      rcases (dedup_mem _ _ _).mp hmem with h0 | hv
      · cases h0
      · exact hf hv
    rw [if_neg hkeys, if_neg hf]

/-- C2: in the stage-B reverse index of `_get_target_ids_as_chembl`, a
form identifier discovered in stage A appears as a key of `forms_to_ID`
exactly when it belongs to some per-compound family, and it is then
mapped to the key of the LAST family (in the `ID_forms` iteration order)
that contains it — last-write-wins; when the families containing it all
share one owning input CompoundID (the disjoint case) the mapping is
uniquely that owner. -/
theorem c2_reverse_index (fdb : List FormRec) (ids : List String) (f : String) :
    ((∃ p ∈ stageA fdb ids, f ∈ p.2) ↔ (dictLookup (stageB (stageA fdb ids)) f).isSome = true)
    ∧ ((∃ p ∈ stageA fdb ids, f ∈ p.2) →
        dictLookup (stageB (stageA fdb ids)) f = some (lastOwner (stageA fdb ids) f))
    ∧ (∀ owner, (∃ p ∈ stageA fdb ids, f ∈ p.2) →
        (∀ q ∈ stageA fdb ids, f ∈ q.2 → q.1 = owner) →
        dictLookup (stageB (stageA fdb ids)) f = some (some owner)) := by
  refine ⟨?_, ?_, ?_⟩
  · rw [stageB_lookup]
    by_cases hf : f ∈ stageAValues (stageA fdb ids)
    · simp only [if_pos hf, Option.isSome_some]
      simp [(stageAValues_mem _ _).mp hf]
    · simp only [if_neg hf, Option.isSome_none]
      simp only [← stageAValues_mem (stageA fdb ids) f]
      simp [hf]
  · intro hex
    rw [stageB_lookup, if_pos ((stageAValues_mem _ _).mpr hex)]
  · intro owner hex hall
    rw [stageB_lookup, if_pos ((stageAValues_mem _ _).mpr hex)]
    obtain ⟨p, hp, hfp⟩ := hex
    cases hfind : (stageA fdb ids).reverse.find? (fun q => decide (f ∈ q.2)) with
    | none =>
      exact absurd (List.find?_eq_none.mp hfind p (List.mem_reverse.mpr hp)) (by simp [hfp])
    | some q =>
      have hq2 : f ∈ q.2 := by
        have := List.find?_some hfind
        simpa using this
      have hqmem : q ∈ stageA fdb ids := List.mem_reverse.mp (List.mem_of_find?_eq_some hfind)
      unfold lastOwner
      rw [hfind]
      simp [hall q hqmem hq2]

/-- C2 witness: with families `C1 → {F1, C1}` and `C2 → {F2}`, the form
id `F1` is a key of the reverse index mapped to its owner `C1`. -/
theorem c2_reverse_index_witness :
    (∃ p ∈ stageA fdbW ["C1", "C2"], "F1" ∈ p.2) ∧
    dictLookup (stageB (stageA fdbW ["C1", "C2"])) "F1" = some (some "C1") := by
  have hex : ∃ p ∈ stageA fdbW ["C1", "C2"], "F1" ∈ p.2 := by decide
  refine ⟨hex, ?_⟩
  rw [(c2_reverse_index fdbW ["C1", "C2"] "F1").2.1 hex]
  decide

theorem gciStep_eq (exact search : String → List MolEntry) (ids : List (String × String)) (c : String) :
    gciStep exact search ids c =
      match resolveOutcome exact search c with
      | none => ids
      | some v => dictInsert ids c v := by
  simp only [gciStep, resolveOutcome]
  cases hres : (if (exact c).length = 0 then (search c).filter (fun i => inspect_synonyms i c) else exact c) with
  | nil => simp [hres]
  | cons x xs => simp [hres]

theorem gci_lookup_notmem (exact search : String → List MolEntry) (compounds : List String)
    (name : String) (h : name ∉ compounds) (d : List (String × String)) :
    dictLookup (compounds.foldl (gciStep exact search) d) name = dictLookup d name := by
  induction compounds generalizing d with
  | nil => rfl
  | cons c rest ih =>
    have hc : name ≠ c := fun he => h (he ▸ List.mem_cons_self c rest)
    have hr : name ∉ rest := fun hm => h (List.mem_cons_of_mem c hm)
    rw [List.foldl_cons, ih hr, gciStep_eq]
    cases hro : resolveOutcome exact search c with
    | none => rfl
    | some v => exact dictLookup_dictInsert_ne d c name v hc

theorem gci_lookup_mem (exact search : String → List MolEntry) (compounds : List String)
    (name : String) (h : name ∈ compounds) (d : List (String × String)) :
    dictLookup (compounds.foldl (gciStep exact search) d) name =
      match resolveOutcome exact search name with
      | none => dictLookup d name
      | some v => some v := by
  induction compounds generalizing d with
  | nil => cases h
  | cons c rest ih =>
    rw [List.foldl_cons]
    by_cases hr : name ∈ rest
    · rw [ih hr]
      cases hro : resolveOutcome exact search name with
      | some v => rfl
      | none =>
        by_cases hc : c = name
        · subst hc
          rw [gciStep_eq, hro]
        · rw [gciStep_eq]
          cases resolveOutcome exact search c with
          | none => rfl
          | some v => exact dictLookup_dictInsert_ne d c name v (Ne.symm hc)
    · have hc : c = name := by
        rcases List.mem_cons.mp h with he | hm
        · exact he.symm
        · exact absurd hm hr
      subst hc
      rw [gci_lookup_notmem exact search rest c hr, gciStep_eq]
      cases hro : resolveOutcome exact search c with
      | none => rfl
      | some v => exact dictLookup_dictInsert_self d c v

/-- C5: for every input name of `get_chembl_id`, when both the exact
preferred-name lookup and the synonym-filtered fallback search return zero
candidates the name is absent from the output dict (and nothing is
raised); when either stage leaves one or more candidates the name maps to
the first candidate's `molecule_chembl_id`, so each input name resolves to
at most one compound id. -/
theorem c5_resolver (exact search : String → List MolEntry) (compounds : List String)
    (name : String) (h : name ∈ compounds) :
    (exact name = [] →
      (search name).filter (fun i => inspect_synonyms i name) = [] →
      dictLookup (get_chembl_id exact search compounds) name = none)
    ∧ (∀ e rest, exact name = e :: rest →
      dictLookup (get_chembl_id exact search compounds) name = some e.molecule_chembl_id)
    ∧ (∀ e rest, exact name = [] →
      (search name).filter (fun i => inspect_synonyms i name) = e :: rest →
      dictLookup (get_chembl_id exact search compounds) name = some e.molecule_chembl_id) := by
  have hmain := gci_lookup_mem exact search compounds name h []
  refine ⟨?_, ?_, ?_⟩
  · intro he hf
    have hro : resolveOutcome exact search name = none := by
      simp [resolveOutcome, he, hf]
    simp only [get_chembl_id]
    rw [hmain, hro]
    rfl
  · intro e rest he
    have hro : resolveOutcome exact search name = some e.molecule_chembl_id := by
      simp [resolveOutcome, he]
    simp only [get_chembl_id]
    rw [hmain, hro]
  · intro e rest he hf
    have hro : resolveOutcome exact search name = some e.molecule_chembl_id := by
      simp [resolveOutcome, he, hf]
    simp only [get_chembl_id]
    rw [hmain, hro]

/-- C5 witness: `"aspirin"` has an exact match and resolves to its first
candidate `"CHEMBL25"`, while `"unknown"` has none at either stage. -/
theorem c5_resolver_witness :
    dictLookup (get_chembl_id exactW searchW ["aspirin", "unknown"]) "aspirin" = some "CHEMBL25" :=
  (c5_resolver exactW searchW ["aspirin", "unknown"] "aspirin" (by decide)).2.1
    ⟨"CHEMBL25", ["aspirin"]⟩ [] (by decide)

theorem dictBuild_lookup {β : Type} (mk : String → β) (ids : List String)
    (d : List (String × β)) (x : String) (l : β)
    (h : dictLookup (ids.foldl (fun d c => dictInsert d c (mk c)) d) x = some l) :
    dictLookup d x = some l ∨ (x ∈ ids ∧ l = mk x) := by
  induction ids generalizing d with
  | nil => exact Or.inl h
  | cons c rest ih =>
    rw [List.foldl_cons] at h
    rcases ih (dictInsert d c (mk c)) h with hd | ⟨hm, hl⟩
    · by_cases hx : x = c
      · subst hx
        rw [dictLookup_dictInsert_self] at hd
        exact Or.inr ⟨List.mem_cons_self _ _, (Option.some.inj hd).symm⟩
      · rw [dictLookup_dictInsert_ne d c x (mk c) hx] at hd
        exact Or.inl hd
    · exact Or.inr ⟨List.mem_cons_of_mem _ hm, hl⟩

theorem simFold_excl (compound : String) (show_similarity : Bool) (entries : List SimEntry)
    (acc : List SimItem) (hacc : ∀ it ∈ acc, SimItem.itemId it ≠ compound) :
    ∀ it ∈ entries.foldl
      (fun acc entry =>
        if entry.molecule_chembl_id = compound then acc
        else if show_similarity then acc ++ [SimItem.scored entry.molecule_chembl_id entry.similarity]
        else acc ++ [SimItem.bare entry.molecule_chembl_id]) acc,
      SimItem.itemId it ≠ compound := by
  induction entries generalizing acc with
  | nil => exact hacc
  | cons e rest ih =>
    rw [List.foldl_cons]
    by_cases he : e.molecule_chembl_id = compound
    · rw [if_pos he]
      exact ih acc hacc
    · rw [if_neg he]
      refine ih _ ?_
      intro it hit
      split at hit
      · rcases List.mem_append.mp hit with hi | hi
        · exact hacc it hi
        · rw [List.mem_singleton.mp hi]
          exact he
      · rcases List.mem_append.mp hit with hi | hi
        · exact hacc it hi
        · rw [List.mem_singleton.mp hi]
          exact he

theorem simFoldSmile_map (show_similarity : Bool) (entries : List SimEntry)
    (acc : List SimItem) :
    (entries.foldl
      (fun acc entry =>
        if show_similarity then acc ++ [SimItem.scored entry.molecule_chembl_id entry.similarity]
        else acc ++ [SimItem.bare entry.molecule_chembl_id]) acc).map SimItem.itemId =
      acc.map SimItem.itemId ++ entries.map (fun e => e.molecule_chembl_id) := by
  induction entries generalizing acc with
  | nil => simp
  | cons e rest ih =>
    rw [List.foldl_cons, ih]
    by_cases hs : show_similarity = true
    · rw [if_pos hs]
      simp [SimItem.itemId]
    · rw [if_neg hs]
      simp [SimItem.itemId]

/-- C9: in `get_similar_molecules` (identifier-based query form) the query
compound's own id never appears in its result list, even when the remote
service returns a self-match record; in `get_similar_molecules_smile`
(structure-string form) no such exclusion is applied — the result ids are
exactly the service's result ids. -/
theorem c9_self_exclusion (qsim : String → Rat → List SimEntry) (chembl_ids smiles : List String)
    (similarity : Rat) (show_similarity : Bool) (compound : String) (l : List SimItem) :
    (dictLookup (get_similar_molecules qsim chembl_ids similarity show_similarity) compound = some l →
      ∀ it ∈ l, SimItem.itemId it ≠ compound)
    ∧ (dictLookup (get_similar_molecules_smile qsim smiles similarity show_similarity) compound = some l →
      l.map SimItem.itemId = (qsim compound similarity).map (fun e => e.molecule_chembl_id)) := by
  constructor
  · intro h
    simp only [get_similar_molecules] at h
    rcases dictBuild_lookup _ chembl_ids [] compound l h with hd | ⟨_, hl⟩
    · simp [dictLookup] at hd
    · subst hl
      exact simFold_excl compound show_similarity (qsim compound similarity) [] (by simp)
  · intro h
    simp only [get_similar_molecules_smile] at h
    rcases dictBuild_lookup _ smiles [] compound l h with hd | ⟨_, hl⟩
    · simp [dictLookup] at hd
    · subst hl
      have hmap := simFoldSmile_map show_similarity (qsim compound similarity) []
      simpa [mkSimilarsSmile] using hmap

/-- C9 witness: the service returns a 100% self-match for `"CHEMBL1"`, yet
the identifier-mode result list for `"CHEMBL1"` contains only the other
neighbour. -/
theorem c9_self_exclusion_witness :
    ∀ it ∈ [SimItem.bare "CHEMBL2"], SimItem.itemId it ≠ "CHEMBL1" :=
  (c9_self_exclusion qsimW ["CHEMBL1"] ["S1"] 90 false "CHEMBL1" [SimItem.bare "CHEMBL2"]).1
    (by decide)

theorem except_isOk_error {ε α : Type} (e : ε) : (Except.error e : Except ε α).isOk = false := rfl

theorem except_isOk_ok {ε α : Type} (a : α) : (Except.ok a : Except ε α).isOk = true := rfl

theorem getGoAux_ok (fetch : String → Except HTTPFailure (List String)) (ids : List String)
    (hp : ∀ id ∈ ids, goLinesOk fetch id = true)
    (hnone : ids.find? (fun id => badFetch fetch id) = none)
    (d : List (String × List (String × String))) :
    ∃ m, getGoAux fetch ids d = Except.ok m ∧
      ∀ x, ((dictLookup m x).isSome = true ↔
        ((dictLookup d x).isSome = true ∨ (x ∈ ids ∧ (fetch x).isOk = true))) := by
  induction ids generalizing d with
  | nil => exact ⟨d, rfl, by simp⟩
  | cons id rest ih =>
    rw [List.find?_cons] at hnone
    cases hb : badFetch fetch id with
    | true => rw [hb] at hnone; simp at hnone
    | false =>
      rw [hb] at hnone
      simp only at hnone
      have hprest : ∀ i ∈ rest, goLinesOk fetch i = true :=
        fun i hi => hp i (List.mem_cons_of_mem id hi)
      cases hf : fetch id with
      | error e =>
        have hskip : skippableCode e.code = true := by
          unfold badFetch at hb
          rw [hf] at hb
          simpa using hb
        obtain ⟨m, hm, hiff⟩ := ih hprest hnone d
        refine ⟨m, ?_, ?_⟩
        · simpa [getGoAux, hf, hskip] using hm
        · intro x
          rw [hiff x]
          constructor
          · rintro (hd | ⟨hm', ho⟩)
            · exact Or.inl hd
            · exact Or.inr ⟨List.mem_cons_of_mem _ hm', ho⟩
          · rintro (hd | ⟨hm', ho⟩)
            · exact Or.inl hd
            · rcases List.mem_cons.mp hm' with rfl | hmem
              · rw [hf, except_isOk_error] at ho
                cases ho
              · exact Or.inr ⟨hmem, ho⟩
      | ok lines =>
        have hok2 : (goScan lines).isOk = true := by
          have hok := hp id (List.mem_cons_self _ _)
          unfold goLinesOk at hok
          rw [hf] at hok
          exact hok
        have hscan : ∃ st, goScan lines = Except.ok st := by
          cases hsc : goScan lines with
          | ok st => exact ⟨st, rfl⟩
          | error e =>
            rw [hsc, except_isOk_error] at hok2
            cases hok2
        obtain ⟨st, hst⟩ := hscan
        obtain ⟨m, hm, hiff⟩ := ih hprest hnone (dictInsert d id (st.1.zip st.2))
        refine ⟨m, ?_, ?_⟩
        · simp only [getGoAux, hf, hst]
          exact hm
        · intro x
          rw [hiff x, dictLookup_dictInsert_isSome]
          constructor
          · rintro ((rfl | hd) | ⟨hm', ho⟩)
            · exact Or.inr ⟨List.mem_cons_self _ _, by rw [hf, except_isOk_ok]⟩
            · exact Or.inl hd
            · exact Or.inr ⟨List.mem_cons_of_mem _ hm', ho⟩
          · rintro (hd | ⟨hm', ho⟩)
            · exact Or.inl (Or.inr hd)
            · rcases List.mem_cons.mp hm' with rfl | hmem
              · exact Or.inl (Or.inl rfl)
              · exact Or.inr ⟨hmem, ho⟩

theorem getGoAux_err (fetch : String → Except HTTPFailure (List String)) (ids : List String)
    (b : String) (hp : ∀ id ∈ ids, goLinesOk fetch id = true)
    (hfind : ids.find? (fun id => badFetch fetch id) = some b)
    (d : List (String × List (String × String))) :
    ∃ e, fetch b = Except.error e ∧ getGoAux fetch ids d = Except.error (PyErr.httpError e) := by
  induction ids generalizing d with
  | nil => simp at hfind
  | cons id rest ih =>
    rw [List.find?_cons] at hfind
    cases hb : badFetch fetch id with
    | true =>
      rw [hb] at hfind
      simp only [Option.some.injEq] at hfind
      subst hfind
      unfold badFetch at hb
      cases hf : fetch id with
      | ok lines => rw [hf] at hb; simp at hb
      | error e =>
        rw [hf] at hb
        have hskip : skippableCode e.code = false := by simpa using hb
        exact ⟨e, rfl, by simp [getGoAux, hf, hskip]⟩
    | false =>
      rw [hb] at hfind
      simp only at hfind
      have hprest : ∀ i ∈ rest, goLinesOk fetch i = true :=
        fun i hi => hp i (List.mem_cons_of_mem id hi)
      cases hf : fetch id with
      | error e =>
        have hskip : skippableCode e.code = true := by
          unfold badFetch at hb
          rw [hf] at hb
          simpa using hb
        obtain ⟨e', he', hrun⟩ := ih hprest hfind d
        exact ⟨e', he', by simpa [getGoAux, hf, hskip] using hrun⟩
      | ok lines =>
        have hok2 : (goScan lines).isOk = true := by
          have hok := hp id (List.mem_cons_self _ _)
          unfold goLinesOk at hok
          rw [hf] at hok
          exact hok
        have hscan : ∃ st, goScan lines = Except.ok st := by
          cases hsc : goScan lines with
          | ok st => exact ⟨st, rfl⟩
          | error e =>
            rw [hsc, except_isOk_error] at hok2
            cases hok2
        obtain ⟨st, hst⟩ := hscan
        obtain ⟨e', he', hrun⟩ := ih hprest hfind (dictInsert d id (st.1.zip st.2))
        refine ⟨e', he', ?_⟩
        simp only [getGoAux, hf, hst]
        exact hrun

/-- C8: in `get_go_from_uniprot_id`, when no identifier's fetch fails with
a status other than 404/300, the call succeeds and an identifier appears
in the output dict exactly when its own fetch succeeded (so a 404 for one
identifier is warned about, omitted, and does not block the others); when
some identifier's fetch fails with any other status, that first failure's
`HTTPError` propagates to the caller unmodified. -/
theorem c8_fetch_error_handling (fetch : String → Except HTTPFailure (List String))
    (ids : List String) (hp : ∀ id ∈ ids, goLinesOk fetch id = true) :
    (ids.find? (fun id => badFetch fetch id) = none →
      ∃ m, getGoFromUniprotId fetch ids = Except.ok m ∧
        ∀ id ∈ ids, ((dictLookup m id).isSome = true ↔ (fetch id).isOk = true))
    ∧ (∀ b, ids.find? (fun id => badFetch fetch id) = some b →
      ∃ e, fetch b = Except.error e ∧
        getGoFromUniprotId fetch ids = Except.error (PyErr.httpError e)) := by
  constructor
  · intro hnone
    obtain ⟨m, hm, hiff⟩ := getGoAux_ok fetch ids hp hnone []
    refine ⟨m, hm, fun id hid => ?_⟩
    rw [hiff id]
    simp [dictLookup, hid]
  · intro b hfind
    exact getGoAux_err fetch ids b hp hfind []

/-- C8 witness: with `"A"` a 404 and `"B"`, `"C"` successful fetches, the
call succeeds and returns exactly `"B"` and `"C"`. -/
theorem c8_fetch_error_handling_witness :
    ∃ m, getGoFromUniprotId fetchW ["A", "B", "C"] = Except.ok m ∧
      ∀ id ∈ ["A", "B", "C"], ((dictLookup m id).isSome = true ↔ (fetchW id).isOk = true) :=
  (c8_fetch_error_handling fetchW ["A", "B", "C"] (by decide)).1 (by decide)

theorem getLast?_cons_or {α : Type} (a : α) (l : List α) :
    (a :: l).getLast? = l.getLast?.or (some a) := by
  induction l generalizing a with
  | nil => rfl
  | cons b bs ih =>
    rw [List.getLast?_cons_cons, ih b]
    cases bs.getLast? <;> rfl

theorem uniprotAux_append (fetch : String → Except HTTPFailure (List String))
    (xs ys : List String) (st : Option String × List (String × String)) :
    getUniprotNameAux fetch (xs ++ ys) st =
      match getUniprotNameAux fetch xs st with
      | Except.ok st' => getUniprotNameAux fetch ys st'
      | Except.error e => Except.error e := by
  induction xs generalizing st with
  | nil => rfl
  | cons id rest ih =>
    simp only [List.cons_append, getUniprotNameAux]
    cases hf : fetch id with
    | error e =>
      simp only [hf]
      by_cases hs : skippableCode e.code = true
      · rw [if_pos hs, if_pos hs]
        exact ih st
      · rw [if_neg hs, if_neg hs]
    | ok lines =>
      simp only [hf]
      cases hnv : (match lines.find? isRecNameLine with
          | some line => some (extractRecName line)
          | none => st.1) with
      | some n =>
        simp only [hnv]
        exact ih _
      | none => simp only [hnv]

theorem uniprotAux_nameVar (fetch : String → Except HTTPFailure (List String))
    (ids : List String) (v : Option String) (d : List (String × String)) :
    ∀ (v0 : Option String) (d0 : List (String × String)),
      getUniprotNameAux fetch ids (v0, d0) = Except.ok (v, d) →
      v = (extractedNames fetch ids).getLast?.or v0 := by
  induction ids with
  | nil =>
    intro v0 d0 h
    simp only [getUniprotNameAux, Except.ok.injEq, Prod.mk.injEq] at h
    obtain ⟨hv, -⟩ := h
    subst hv
    simp [extractedNames]
  | cons id rest ih =>
    intro v0 d0 h
    simp only [getUniprotNameAux] at h
    cases hf : fetch id with
    | error e =>
      simp only [hf] at h
      by_cases hs : skippableCode e.code = true
      · rw [if_pos hs] at h
        have hstep : extractedNames fetch (id :: rest) = extractedNames fetch rest := by
          simp [extractedNames, List.filterMap_cons, hf]
        rw [hstep]
        exact ih v0 d0 h
      · rw [if_neg hs] at h
        simp at h
    | ok lines =>
      simp only [hf] at h
      cases hfind : lines.find? isRecNameLine with
      | some line =>
        simp only [hfind] at h
        have hv := ih (some (extractRecName line)) _ h
        have hstep : extractedNames fetch (id :: rest) =
            extractRecName line :: extractedNames fetch rest := by
          simp [extractedNames, List.filterMap_cons, hf, hfind]
        rw [hstep, getLast?_cons_or, hv]
        cases (extractedNames fetch rest).getLast? <;> rfl
      | none =>
        simp only [hfind] at h
        cases v0 with
        | none => simp at h
        | some n =>
          have hv := ih (some n) _ h
          have hstep : extractedNames fetch (id :: rest) = extractedNames fetch rest := by
            simp [extractedNames, List.filterMap_cons, hf, hfind]
          rw [hstep]
          exact hv

/-- C10: in `get_uniprot_name`, an accession whose annotation text has no
`DE   RecName:` line is not omitted — the trailing assignment reads the
loop-carried `name` variable, so the accession is mapped to the record
name extracted for the most recent preceding accession that had one; and
when no preceding accession produced a name, the call raises an
unbound-local `NameError` instead of skipping. -/
theorem c10_stale_protein_name (fetch : String → Except HTTPFailure (List String))
    (pre : List String) (a : String) (la : List String) (v : Option String)
    (d : List (String × String))
    (hrun : getUniprotNameAux fetch pre (none, []) = Except.ok (v, d))
    (ha : fetch a = Except.ok la)
    (hno : la.find? isRecNameLine = none) :
    (∀ n, (extractedNames fetch pre).getLast? = some n →
      getUniprotName fetch (pre ++ [a]) = Except.ok (dictInsert d a n))
    ∧ ((extractedNames fetch pre).getLast? = none →
      getUniprotName fetch (pre ++ [a]) = Except.error PyErr.nameError) := by
  have hv := uniprotAux_nameVar fetch pre v d none [] hrun
  rw [Option.or_none] at hv
  have happ := uniprotAux_append fetch pre [a] (none, [])
  rw [hrun] at happ
  simp only at happ
  constructor
  · intro n hn
    rw [hn] at hv
    subst hv
    unfold getUniprotName
    rw [happ]
    simp [getUniprotNameAux, ha, hno, Except.map]
  · intro hn
    rw [hn] at hv
    subst hv
    unfold getUniprotName
    rw [happ]
    simp [getUniprotNameAux, ha, hno, Except.map]

/-- C10 witness: `"P1"` has a record name, `"P2"` has none — and `"P2"` is
mapped to `"P1"`'s extracted name rather than omitted. -/
theorem c10_stale_protein_name_witness :
    getUniprotName fetchN (["P1"] ++ ["P2"]) =
      Except.ok (dictInsert [("P1", "Proto name")] "P2" "Proto name") :=
  (c10_stale_protein_name fetchN ["P1"] "P2" ["CC   nothing"] (some "Proto name")
      [("P1", "Proto name")] (by decide) (by decide) (by decide)).1
    "Proto name" (by decide)

end ChemblTools
